import Mathlib

/-!
Verification of the ModrinthCollectionDownloader reconciliation logic.

Shallow embedding of the two scripts, modrinth_collection_downloader.py
(the current generation) and download_modrinth.py (the legacy generation).
Python strings are modeled as lists of characters (Str); the local mods or
resourcepacks directory is modeled as the list of file names it contains
(membership is what matters, so the filesystem operations are set-like);
network effects are abstracted into explicit parameters (whether a fetch
succeeds, which release the catalog returns).
-/

set_option maxHeartbeats 1000000

/-- A Python string: a list of characters. -/
abbrev Str := List Char

/-- Python s.lower(): lowercase every character. -/
def strLower (s : Str) : Str := s.map Char.toLower

/-- Python file_name.split(chr(46)): split a string on the dot character.
Splitting the empty string yields one empty piece, as in Python. -/
def splitDot : Str → List Str
  | [] => [[]]
  | c :: cs =>
    match splitDot cs with
    | [] => [[c]]
    | h :: t => if c = '.' then [] :: h :: t else (c :: h) :: t

/-- Python chr(46).join(parts): join pieces with dots between them. -/
def joinDot : List Str → Str
  | [] => []
  | [p] => p
  | p :: ps => p ++ '.' :: joinDot ps

/-- The identity encoded in a file name: the second-to-last dot-delimited
segment (Python parts[-2] in get_existing_mods), or none when the name has
fewer than two segments (such files are skipped with a warning). -/
def idOf (f : Str) : Option Str :=
  if (splitDot f).length < 2 then none else (splitDot f)[(splitDot f).length - 2]?

/-- The last dot-delimited segment of a file name (its extension). -/
def lastSeg (f : Str) : Str := (splitDot f).getLastD []

/-- Python list.insert(-1, x): insert x right before the last element. -/
def insertPenult (l : List Str) (x : Str) : List Str :=
  l.take (l.length - 1) ++ x :: l.drop (l.length - 1)

/-- The target file name built in download_mod: split the display name on
dots, insert the mod id before the last segment, and join again
(filename_parts.insert(-1, mod_id)). -/
def targetName (modId disp : Str) : Str := joinDot (insertPenult (splitDot disp) modId)

/-- The segment spelled t, m, p: the extension of every temporary file. -/
def tmpSeg : Str := ['t', 'm', 'p']

/-- The temporary download path used by download_mod and
download_resourcepack: the final name with a dot-tmp suffix. -/
def tmpName (t : Str) : Str := t ++ '.' :: tmpSeg

/-- Creating a file (urlretrieve writing its destination): set-like insert. -/
def fsAdd (f : Str) (fs : List Str) : List Str := if f ∈ fs then fs else f :: fs

/-- Deleting a file (os.remove, or the source side of os.replace). -/
def fsRemove (f : Str) (fs : List Str) : List Str := fs.filter (fun g => decide (g ≠ f))

/-- One downloadable file of a release, as returned by the catalog
(url, filename and primary fields of the file dictionary). -/
structure FileDesc where
  url : Str
  filename : Str
  primary : Bool
  deriving DecidableEq, Repr

/-- One release of a project, as returned by the catalog. A field is none
when the corresponding key is missing from the dictionary (an entry that is
not a dictionary at all behaves like one with both keys missing, since
every filter in get_latest_version tests isinstance together with key
membership). -/
structure ModVersion where
  game_versions : Option (List Str)
  loaders : Option (List Str)
  files : List FileDesc
  deriving DecidableEq, Repr

/-- Python loader.lower() in (l.lower() for l in loaders). -/
def loaderMatches (loader : Str) (lds : List Str) : Bool :=
  decide (strLower loader ∈ lds.map strLower)

/-- The filter of the explicit-version branch of get_latest_version:
the candidate is a dictionary with both keys, the requested version is in
game_versions, and the loader matches case-insensitively. -/
def matchesExplicit (version loader : Str) (v : ModVersion) : Bool :=
  match v.game_versions, v.loaders with
  | some gvs, some lds => decide (version ∈ gvs) && loaderMatches loader lds
  | _, _ => false

/-- get_latest_version when a version is explicitly given: the first
candidate passing matchesExplicit, none otherwise (Python next(..., None)). -/
def get_latest_version_explicit (data : List ModVersion) (version loader : Str) :
    Option ModVersion :=
  data.find? (matchesExplicit version loader)

/-- The version filter of download_resourcepack when a version is explicitly
given: only the game_versions key is consulted, the loader is ignored. -/
def rpMatchesVersion (version : Str) (v : ModVersion) : Bool :=
  match v.game_versions with
  | some gvs => decide (version ∈ gvs)
  | none => false

/-- download_resourcepack when a version is explicitly given: the first
candidate whose game_versions contains the version; the Python default of
the next(...) call is rp_versions_data[0] if rp_versions_data else None,
so with no match the newest candidate is returned instead of none. -/
def rp_version_explicit (data : List ModVersion) (version : Str) : Option ModVersion :=
  match data.find? (rpMatchesVersion version) with
  | some v => some v
  | none => data.head?

/-- Tier 1 of the auto-mode fallback: latest version and loader both match. -/
def matchesTier1 (latest loader : Str) (v : ModVersion) : Bool :=
  match v.game_versions, v.loaders with
  | some gvs, some lds => decide (latest ∈ gvs) && loaderMatches loader lds
  | _, _ => false

/-- Tier 2 of the auto-mode fallback: latest version matches, loader ignored. -/
def matchesTier2 (latest : Str) (v : ModVersion) : Bool :=
  match v.game_versions with
  | some gvs => decide (latest ∈ gvs)
  | none => false

/-- Tier 3 of the auto-mode fallback: loader matches, version ignored. -/
def matchesTier3 (loader : Str) (v : ModVersion) : Bool :=
  match v.loaders with
  | some lds => loaderMatches loader lds
  | none => false

/-- The auto-mode branch of get_latest_version (no version given): filter by
tier 1; if empty refilter by tier 2; if still empty refilter by tier 3;
return the head of the surviving list (compatible_versions[0]) or none. -/
def get_latest_version_auto (data : List ModVersion) (latest loader : Str) :
    Option ModVersion :=
  let c1 := data.filter (matchesTier1 latest loader)
  let c2 := if c1.isEmpty then data.filter (matchesTier2 latest) else c1
  let c3 := if c2.isEmpty then data.filter (matchesTier3 loader) else c2
  c3.head?

/-- get_latest_version of modrinth_collection_downloader.py, with the
candidate list, and the cached latest Minecraft version in auto mode, passed
explicitly (the network lookups are external collaborators). -/
def get_latest_version (data : List ModVersion) (version? : Option Str) (loader : Str)
    (latestMc? : Option Str) : Option ModVersion :=
  match version? with
  | some version => get_latest_version_explicit data version loader
  | none =>
    match latestMc? with
    | none => none
    | some latest => get_latest_version_auto data latest loader

/-- get_latest_minecraft_version with the module-level cache made explicit:
given the cache and the (sorted, newest-first) list fetched from the version
catalog when the cache is empty, return the resolved version and the new
cache. An empty or failed fetch resolves nothing and caches nothing. -/
def get_latest_minecraft_version (cache : Option Str) (fetched : Option (List Str)) :
    Option Str × Option Str :=
  match cache with
  | some v => (some v, some v)
  | none =>
    match fetched with
    | some (v :: _) => (some v, some v)
    | _ => (none, none)

/-- File selection in download_mod: the first file with primary true,
none otherwise — a mod with no primary file is not downloaded. -/
def modFileToDownload (files : List FileDesc) : Option FileDesc :=
  files.find? (fun f => f.primary)

/-- File selection in download_resourcepack: the first file with primary
true; when there is none and the file list is nonempty, its first file. -/
def rpFileToDownload (files : List FileDesc) : Option FileDesc :=
  match files.find? (fun f => f.primary) with
  | some f => some f
  | none => files.head?

/-- The terminal outcome of download_mod for one identity. fetchFailed is
the path through the except branch around download_file: the function
returns after cleaning the temporary file, without touching any counter. -/
inductive MOutcome where
  | noVersion
  | alreadyExists
  | updated
  | downloaded
  | fetchFailed
  deriving DecidableEq, Repr

/-- The per-identity inputs of download_mod that the network determines:
the project id, the chosen file's display name (none when no compatible
release or no primary file was found), and whether the fetch succeeds. -/
structure ModStep where
  modId : Str
  file? : Option Str
  fetchOk : Bool
  deriving DecidableEq, Repr

/-- The outcome of download_mod is determined by the step data and the
snapshot alone (the evolving directory is never consulted): mirrors the
branch structure of download_mod. -/
def stepOutcome (snap : List (Str × Str)) (st : ModStep) : MOutcome :=
  match st.file? with
  | none => MOutcome.noVersion
  | some disp =>
    match (snap.find? (fun p => decide (p.1 = st.modId))).map Prod.snd with
    | some old =>
      if old = targetName st.modId disp then MOutcome.alreadyExists
      else if st.fetchOk then MOutcome.updated
      else MOutcome.fetchFailed
    | none =>
      if st.fetchOk then MOutcome.downloaded
      else MOutcome.fetchFailed

/-- The file names download_mod creates and leaves behind for this step. -/
def stepAdds (snap : List (Str × Str)) (st : ModStep) : List Str :=
  match st.file? with
  | none => []
  | some disp =>
    match (snap.find? (fun p => decide (p.1 = st.modId))).map Prod.snd with
    | some old =>
      if old = targetName st.modId disp then []
      else if st.fetchOk then [targetName st.modId disp]
      else []
    | none =>
      if st.fetchOk then [targetName st.modId disp]
      else []

/-- The file names download_mod deletes for this step (the temporary file
always, and on a successful update the old installed file). -/
def stepRemoves (snap : List (Str × Str)) (st : ModStep) : List Str :=
  match st.file? with
  | none => []
  | some disp =>
    match (snap.find? (fun p => decide (p.1 = st.modId))).map Prod.snd with
    | some old =>
      if old = targetName st.modId disp then []
      else if st.fetchOk then [tmpName (targetName st.modId disp), old]
      else [tmpName (targetName st.modId disp)]
    | none =>
      if st.fetchOk then [tmpName (targetName st.modId disp)]
      else [tmpName (targetName st.modId disp)]

/-- One call of download_mod, as it acts on the directory: look up the
identity in the snapshot taken before the pool started, derive the target
name, and perform the downloads, the atomic replace and the removals in
the order of the source. Returns the new directory and the outcome. -/
def processMod (snapshot : List (Str × Str)) (st : ModStep) (fs : List Str) :
    List Str × MOutcome :=
  match st.file? with
  | none => (fs, MOutcome.noVersion)
  | some disp =>
    let target := targetName st.modId disp
    let tmp := tmpName target
    match (snapshot.find? (fun p => decide (p.1 = st.modId))).map Prod.snd with
    | some old =>
      if old = target then (fs, MOutcome.alreadyExists)
      else if st.fetchOk then
        (fsRemove old (fsAdd target (fsRemove tmp (fsAdd tmp fs))), MOutcome.updated)
      else (fsRemove tmp (fsAdd tmp fs), MOutcome.fetchFailed)
    | none =>
      if st.fetchOk then (fsAdd target (fsRemove tmp (fsAdd tmp fs)), MOutcome.downloaded)
      else (fsRemove tmp (fsAdd tmp fs), MOutcome.fetchFailed)

/-- Process the mod identities in order against a fixed snapshot,
returning the final directory and the outcome of every identity. -/
def runMods (snapshot : List (Str × Str)) : List ModStep → List Str → List Str × List MOutcome
  | [], fs => (fs, [])
  | st :: rest, fs =>
    let r := processMod snapshot st fs
    let rr := runMods snapshot rest r.1
    (rr.1, r.2 :: rr.2)

/-- get_existing_mods: derive (id, filename) for every file of the
directory whose name has at least two dot-delimited segments. -/
def getExistingMods (fs : List Str) : List (Str × Str) :=
  fs.filterMap (fun f => (idOf f).map (fun i => (i, f)))

/-- One whole mods run of main: take the snapshot once, then process each
identity of the collection against it. -/
def runAll (steps : List ModStep) (fs : List Str) : List Str × List MOutcome :=
  runMods (getExistingMods fs) steps fs

/-- At most one file of the directory maps to any one identity. -/
def UniquePerId (fs : List Str) : Prop :=
  ∀ f ∈ fs, ∀ g ∈ fs, idOf f ≠ none → idOf f = idOf g → f = g

instance decidableUniquePerId (fs : List Str) : Decidable (UniquePerId fs) := by
  unfold UniquePerId
  infer_instance

/-- A step whose catalog data is benign: the project id contains no dot
(so it survives the filename round trip) and the chosen file name does not
itself end in the temporary-file extension. -/
def goodStep (st : ModStep) : Bool :=
  decide ('.' ∉ st.modId) &&
    (match st.file? with
     | none => true
     | some disp => decide (lastSeg disp ≠ tmpSeg))

/-- Whether an outcome's code path called download_file. -/
def fetchInvoked : MOutcome → Bool
  | MOutcome.updated => true
  | MOutcome.downloaded => true
  | MOutcome.fetchFailed => true
  | _ => false

/-- The terminal outcome of download_resourcepack for one identity. -/
inductive RpOutcome where
  | noVersion
  | alreadyExists
  | downloaded
  | fetchFailed
  deriving DecidableEq, Repr

/-- One call of download_resourcepack, as it acts on the resourcepacks
directory: file? is the chosen file name (none for every early return:
details missing, not a resource pack, no versions, no compatible version,
no file). There is no update path: either the name is already in the
snapshot, or the file is downloaded next to whatever is there. -/
def processRp (snapshot : List Str) (file? : Option Str) (fetchOk : Bool) (fs : List Str) :
    List Str × RpOutcome :=
  match file? with
  | none => (fs, RpOutcome.noVersion)
  | some fname =>
    if fname ∈ snapshot then (fs, RpOutcome.alreadyExists)
    else if fetchOk then
      (fsAdd fname (fsRemove (tmpName fname) (fsAdd (tmpName fname) fs)), RpOutcome.downloaded)
    else (fsRemove (tmpName fname) (fsAdd (tmpName fname) fs), RpOutcome.fetchFailed)

/-- Process the resource packs in order against a fixed snapshot. -/
def runRp (snapshot : List Str) : List (Option Str × Bool) → List Str → List Str × List RpOutcome
  | [], fs => (fs, [])
  | s :: rest, fs =>
    let r := processRp snapshot s.1 s.2 fs
    let rr := runRp snapshot rest r.1
    (rr.1, r.2 :: rr.2)

/-- The stats dictionary of modrinth_collection_downloader.py. -/
structure Stats where
  total_checked : Nat
  total_mods_checked : Nat
  total_resourcepacks_checked : Nat
  total_updated : Nat
  total_mods_updated : Nat
  total_resourcepacks_updated : Nat
  total_already_exist : Nat
  total_mods_already_exist : Nat
  total_resourcepacks_already_exist : Nat
  total_no_version : Nat
  total_mods_no_version : Nat
  total_resourcepacks_no_version : Nat
  total_downloaded : Nat
  total_mods_downloaded : Nat
  total_resourcepacks_downloaded : Nat
  deriving DecidableEq, Repr

/-- All stats start at zero. -/
def initStats : Stats := ⟨0, 0, 0, 0, 0, 0, 0, 0, 0, 0, 0, 0, 0, 0, 0⟩

/-- The counter increments download_mod performs for one identity: checked
counters at entry, then the counters of the terminal branch. The
fetch-failure return increments no outcome counter at all. -/
def modStatsUpdate (o : MOutcome) (s : Stats) : Stats :=
  let s1 := { s with total_checked := s.total_checked + 1,
                     total_mods_checked := s.total_mods_checked + 1 }
  match o with
  | MOutcome.noVersion =>
    { s1 with total_no_version := s1.total_no_version + 1,
              total_mods_no_version := s1.total_mods_no_version + 1 }
  | MOutcome.alreadyExists =>
    { s1 with total_already_exist := s1.total_already_exist + 1,
              total_mods_already_exist := s1.total_mods_already_exist + 1 }
  | MOutcome.updated =>
    { s1 with total_updated := s1.total_updated + 1,
              total_mods_updated := s1.total_mods_updated + 1 }
  | MOutcome.downloaded =>
    { s1 with total_downloaded := s1.total_downloaded + 1,
              total_mods_downloaded := s1.total_mods_downloaded + 1 }
  | MOutcome.fetchFailed => s1

/-- The counter increments download_resourcepack performs for one identity.
No branch of the function touches total_updated or
total_resourcepacks_updated. -/
def rpStatsUpdate (o : RpOutcome) (s : Stats) : Stats :=
  let s1 := { s with total_checked := s.total_checked + 1,
                     total_resourcepacks_checked := s.total_resourcepacks_checked + 1 }
  match o with
  | RpOutcome.noVersion =>
    { s1 with total_no_version := s1.total_no_version + 1,
              total_resourcepacks_no_version := s1.total_resourcepacks_no_version + 1 }
  | RpOutcome.alreadyExists =>
    { s1 with total_already_exist := s1.total_already_exist + 1,
              total_resourcepacks_already_exist := s1.total_resourcepacks_already_exist + 1 }
  | RpOutcome.downloaded =>
    { s1 with total_downloaded := s1.total_downloaded + 1,
              total_resourcepacks_downloaded := s1.total_resourcepacks_downloaded + 1 }
  | RpOutcome.fetchFailed => s1

/-- The statistics of a whole run: every mod outcome and every resource
pack outcome applied once to the shared aggregate. -/
def runStats (mouts : List MOutcome) (routs : List RpOutcome) (s : Stats) : Stats :=
  routs.foldl (fun a o => rpStatsUpdate o a) (mouts.foldl (fun a o => modStatsUpdate o a) s)

/-- Exactly one of the four aggregate outcome counters grows by one, the
other three are unchanged. -/
def IncExactlyOne (s t : Stats) : Prop :=
  (t.total_downloaded = s.total_downloaded + 1 ∧ t.total_updated = s.total_updated ∧
    t.total_already_exist = s.total_already_exist ∧
    t.total_no_version = s.total_no_version) ∨
  (t.total_downloaded = s.total_downloaded ∧ t.total_updated = s.total_updated + 1 ∧
    t.total_already_exist = s.total_already_exist ∧
    t.total_no_version = s.total_no_version) ∨
  (t.total_downloaded = s.total_downloaded ∧ t.total_updated = s.total_updated ∧
    t.total_already_exist = s.total_already_exist + 1 ∧
    t.total_no_version = s.total_no_version) ∨
  (t.total_downloaded = s.total_downloaded ∧ t.total_updated = s.total_updated ∧
    t.total_already_exist = s.total_already_exist ∧
    t.total_no_version = s.total_no_version + 1)

/-- A single filesystem action of the update sequence. -/
inductive FsOp where
  | fetch (dest : Str)
  | rename (src dst : Str)
  | remove (dest : Str)
  deriving DecidableEq, Repr

/-- The effect of one filesystem action on the directory: urlretrieve
creates its destination, os.replace removes the source and creates the
destination, os.remove deletes. -/
def applyOp (fs : List Str) : FsOp → List Str
  | FsOp.fetch n => fsAdd n fs
  | FsOp.rename s d => fsAdd d (fsRemove s fs)
  | FsOp.remove n => fsRemove n fs

/-- The update sequence of download_mod in modrinth_collection_downloader.py:
download to the temporary path, atomically rename it over the final path,
then remove the old installed file — in this order. -/
def updateSeq (tmp final old : Str) : List FsOp :=
  [FsOp.fetch tmp, FsOp.rename tmp final, FsOp.remove old]

/-- The update sequence of download_mod in download_modrinth.py: download
directly to the final path, then remove the old installed file. -/
def legacyUpdateSeq (final old : Str) : List FsOp :=
  [FsOp.fetch final, FsOp.remove old]

/-- Run a prefix of an operation sequence. -/
def execOps (fs : List Str) (ops : List FsOp) : List Str := ops.foldl applyOp fs

/-- The directory left by download_mod of download_modrinth.py from the
download call on, when the existing file differs from the target:
download_file writes the final path directly (on a failed fetch it swallows
the URLError, leaving the partial file when one was created), and then the
old installed file is removed whether or not the fetch succeeded. -/
def legacyDownloadRun (existing? : Option Str) (target : Str) (fetchOk created : Bool)
    (fs : List Str) : List Str :=
  let fs1 := if fetchOk || created then fsAdd target fs else fs
  match existing? with
  | some old => fsRemove old fs1
  | none => fs1

theorem mem_fsAdd {g f : Str} {fs : List Str} : g ∈ fsAdd f fs ↔ g = f ∨ g ∈ fs := by
  unfold fsAdd
  split
  · constructor
    · exact Or.inr
    · rintro (rfl | h) <;> assumption
  · simp [List.mem_cons]

theorem mem_fsRemove {g f : Str} {fs : List Str} : g ∈ fsRemove f fs ↔ g ∈ fs ∧ g ≠ f := by
  simp [fsRemove]

theorem splitDot_ne_nil (s : Str) : splitDot s ≠ [] := by
  cases s with
  | nil => simp [splitDot]
  | cons c cs =>
    unfold splitDot
    cases h : splitDot cs with
    | nil => simp
    | cons hd tl =>
      by_cases hc : c = '.' <;> simp [hc]

theorem splitDot_cons (c : Char) (cs : Str) :
    splitDot (c :: cs) = if c = '.' then [] :: splitDot cs
      else (c :: (splitDot cs).headD []) :: (splitDot cs).tail := by
  have hbody : splitDot (c :: cs) = match splitDot cs with
      | [] => [[c]]
      | h :: t => if c = '.' then [] :: h :: t else (c :: h) :: t := rfl
  cases h : splitDot cs with
  | nil => exact absurd h (splitDot_ne_nil cs)
  | cons hd tl =>
    rw [hbody, h]
    by_cases hc : c = '.' <;> simp [hc]

theorem not_dot_of_mem_splitDot : ∀ {s p : Str}, p ∈ splitDot s → '.' ∉ p := by
  intro s
  induction s with
  | nil =>
    intro p hp
    simp [splitDot] at hp
    simp [hp]
  | cons c cs ih =>
    intro p hp
    rw [splitDot_cons] at hp
    cases h : splitDot cs with
    | nil => exact absurd h (splitDot_ne_nil cs)
    | cons hd tl =>
      rw [h] at hp
      have hhd : '.' ∉ hd := ih (by rw [h]; exact List.mem_cons_self hd tl)
      by_cases hc : c = '.'
      · simp only [hc, if_pos rfl] at hp
        rcases List.mem_cons.mp hp with rfl | hp
        · simp
        · exact ih (by rw [h]; exact hp)
      · simp only [if_neg hc, List.headD_cons, List.tail_cons] at hp
        rcases List.mem_cons.mp hp with rfl | hp
        · intro hmem
          rcases List.mem_cons.mp hmem with h1 | h1
          · exact hc h1.symm
          · exact hhd h1
        · exact ih (by rw [h]; exact List.mem_cons_of_mem hd hp)

theorem splitDot_append_dot (a b : Str) : splitDot (a ++ '.' :: b) = splitDot a ++ splitDot b := by
  induction a with
  | nil =>
    rw [List.nil_append, splitDot_cons]
    simp [splitDot]
  | cons c a ih =>
    simp only [List.cons_append, splitDot_cons, ih]
    cases h : splitDot a with
    | nil => exact absurd h (splitDot_ne_nil a)
    | cons hd tl => by_cases hc : c = '.' <;> simp [hc, h]

theorem splitDot_eq_single {s : Str} (h : '.' ∉ s) : splitDot s = [s] := by
  induction s with
  | nil => simp [splitDot]
  | cons c cs ih =>
    have hc : c ≠ '.' := fun hh => h (hh ▸ List.mem_cons_self c cs)
    have hcs : '.' ∉ cs := fun hh => h (List.mem_cons_of_mem c hh)
    rw [splitDot_cons, ih hcs]
    simp [hc]

theorem splitDot_joinDot : ∀ {l : List Str}, l ≠ [] → (∀ p ∈ l, '.' ∉ p) →
    splitDot (joinDot l) = l := by
  intro l
  induction l with
  | nil => intro h; exact absurd rfl h
  | cons p ps ih =>
    intro _ hdots
    cases ps with
    | nil =>
      simp only [joinDot]
      exact splitDot_eq_single (hdots p (List.mem_cons_self p []))
    | cons q t =>
      have hj : joinDot (p :: q :: t) = p ++ '.' :: joinDot (q :: t) := rfl
      rw [hj, splitDot_append_dot,
        splitDot_eq_single (hdots p (List.mem_cons_self p (q :: t))),
        ih (by simp) (fun r hr => hdots r (List.mem_cons_of_mem p hr))]
      rfl

theorem getLastD_append_cons (l1 l2 : List Str) (x d : Str) :
    (l1 ++ x :: l2).getLastD d = l2.getLastD x := by
  induction l1 generalizing d with
  | nil => rw [List.nil_append, List.getLastD_cons]
  | cons a l ih => rw [List.cons_append, List.getLastD_cons, ih]

theorem insertPenult_concat (ps : List Str) (pl x : Str) :
    insertPenult (ps ++ [pl]) x = ps ++ x :: [pl] := by
  unfold insertPenult
  have h1 : (ps ++ [pl]).length - 1 = ps.length := by simp
  rw [h1, List.take_left, List.drop_left]

theorem insertPenult_ne_nil (l : List Str) (x : Str) : insertPenult l x ≠ [] := by
  simp [insertPenult]

theorem splitDot_targetName (modId disp : Str) (h : '.' ∉ modId) :
    splitDot (targetName modId disp) = insertPenult (splitDot disp) modId := by
  unfold targetName
  apply splitDot_joinDot (insertPenult_ne_nil _ _)
  intro p hp
  unfold insertPenult at hp
  rcases List.mem_append.mp hp with hp | hp
  · exact not_dot_of_mem_splitDot (List.take_subset _ _ hp)
  · rcases List.mem_cons.mp hp with rfl | hp
    · exact h
    · exact not_dot_of_mem_splitDot (List.drop_subset _ _ hp)

theorem idOf_targetName (modId disp : Str) (h : '.' ∉ modId) :
    idOf (targetName modId disp) = some modId := by
  rcases List.eq_nil_or_concat' (splitDot disp) with hnil | ⟨ps, pl, hsp⟩
  · exact absurd hnil (splitDot_ne_nil disp)
  unfold idOf
  rw [splitDot_targetName modId disp h, hsp, insertPenult_concat]
  have hlen : (ps ++ modId :: [pl]).length = ps.length + 2 := by simp
  rw [hlen, if_neg (by omega)]
  have hidx : ps.length + 2 - 2 = ps.length := by omega
  rw [hidx, List.getElem?_append_right (Nat.le_refl _)]
  simp

theorem lastSeg_tmpName (t : Str) : lastSeg (tmpName t) = tmpSeg := by
  unfold lastSeg tmpName
  rw [splitDot_append_dot, splitDot_eq_single (s := tmpSeg) (by decide),
    getLastD_append_cons]
  rfl

theorem lastSeg_targetName (modId disp : Str) (h : '.' ∉ modId) :
    lastSeg (targetName modId disp) = lastSeg disp := by
  rcases List.eq_nil_or_concat' (splitDot disp) with hnil | ⟨ps, pl, hsp⟩
  · exact absurd hnil (splitDot_ne_nil disp)
  unfold lastSeg
  rw [splitDot_targetName modId disp h, hsp, insertPenult_concat,
    getLastD_append_cons, getLastD_append_cons]
  simp [List.getLastD_cons]

theorem targetName_ne_tmpName (modId disp x : Str) (hm : '.' ∉ modId)
    (hd : lastSeg disp ≠ tmpSeg) : targetName modId disp ≠ tmpName x := by
  intro he
  apply hd
  rw [← lastSeg_targetName modId disp hm, he, lastSeg_tmpName]

theorem goodStep_modId {st : ModStep} (h : goodStep st = true) : '.' ∉ st.modId := by
  unfold goodStep at h
  exact of_decide_eq_true ((Bool.and_eq_true _ _).mp h).1

theorem goodStep_disp {st : ModStep} {disp : Str} (h : goodStep st = true)
    (hf : st.file? = some disp) : lastSeg disp ≠ tmpSeg := by
  unfold goodStep at h
  rw [hf] at h
  exact of_decide_eq_true ((Bool.and_eq_true _ _).mp h).2

theorem find?_decomp {α : Type} {p : α → Bool} :
    ∀ {l : List α} {a : α}, l.find? p = some a →
      p a = true ∧ ∃ pre post, l = pre ++ a :: post ∧ ∀ x ∈ pre, p x = false := by
  intro l
  induction l with
  | nil => intro a h; simp [List.find?] at h
  | cons b t ih =>
    intro a h
    by_cases hb : p b = true
    · rw [List.find?_cons_of_pos _ hb] at h
      obtain rfl : b = a := by injection h
      exact ⟨hb, [], t, rfl, by simp⟩
    · rw [List.find?_cons_of_neg _ (by simpa using hb)] at h
      obtain ⟨hpa, pre, post, hsplit, hpre⟩ := ih h
      refine ⟨hpa, b :: pre, post, by rw [hsplit, List.cons_append], ?_⟩
      intro x hx
      rcases List.mem_cons.mp hx with rfl | hx
      · simpa using hb
      · exact hpre x hx

theorem filter_head?_eq_find? {α : Type} (p : α → Bool) :
    ∀ (l : List α), (l.filter p).head? = l.find? p := by
  intro l
  induction l with
  | nil => rfl
  | cons b t ih =>
    by_cases hb : p b = true
    · rw [List.filter_cons_of_pos hb, List.find?_cons_of_pos _ hb]
      rfl
    · rw [List.filter_cons_of_neg (by simpa using hb), List.find?_cons_of_neg _ (by simpa using hb)]
      exact ih

theorem processMod_snd (snap : List (Str × Str)) (st : ModStep) (fs : List Str) :
    (processMod snap st fs).2 = stepOutcome snap st := by
  unfold processMod stepOutcome
  cases hf : st.file? with
  | none => rfl
  | some disp =>
    cases he : (snap.find? (fun p => decide (p.1 = st.modId))).map Prod.snd with
    | some old =>
      by_cases heq : old = targetName st.modId disp
      · simp [heq]
      · by_cases hok : st.fetchOk <;> simp [heq, hok]
    | none => by_cases hok : st.fetchOk <;> simp [hok]

theorem mem_processMod_iff (snap : List (Str × Str)) (st : ModStep) (fs : List Str) (f : Str) :
    f ∈ (processMod snap st fs).1 ↔
      f ∈ stepAdds snap st ∨ (f ∈ fs ∧ f ∉ stepRemoves snap st) := by
  unfold processMod stepAdds stepRemoves
  cases hf : st.file? with
  | none => simp
  | some disp =>
    cases he : (snap.find? (fun p => decide (p.1 = st.modId))).map Prod.snd with
    | none =>
      by_cases hok : st.fetchOk
      · simp only [if_pos hok, mem_fsAdd, mem_fsRemove, List.mem_singleton, List.not_mem_nil]
        tauto
      · simp only [if_neg hok, mem_fsAdd, mem_fsRemove, List.mem_singleton, List.not_mem_nil]
        tauto
    | some old =>
      by_cases heq : old = targetName st.modId disp
      · simp only [if_pos heq, List.not_mem_nil]
        tauto
      · by_cases hok : st.fetchOk
        · have haux : f = targetName st.modId disp → ¬f = old := by
            intro h1 h2
            exact heq (by rw [← h2, h1])
          simp only [if_neg heq, if_pos hok, mem_fsAdd, mem_fsRemove, List.mem_singleton,
            List.mem_cons, List.not_mem_nil]
          tauto
        · simp only [if_neg heq, if_neg hok, mem_fsAdd, mem_fsRemove, List.mem_singleton,
            List.not_mem_nil]
          tauto

theorem runMods_snd (snap : List (Str × Str)) :
    ∀ (steps : List ModStep) (fs : List Str),
      (runMods snap steps fs).2 = steps.map (stepOutcome snap) := by
  intro steps
  induction steps with
  | nil => intro fs; rfl
  | cons st rest ih =>
    intro fs
    simp only [runMods, List.map_cons]
    rw [ih, processMod_snd]

theorem mem_runMods_of_mem (snap : List (Str × Str)) :
    ∀ (steps : List ModStep) (fs : List Str) (f : Str), f ∈ fs →
      (∀ st ∈ steps, f ∉ stepRemoves snap st) → f ∈ (runMods snap steps fs).1 := by
  intro steps
  induction steps with
  | nil => intro fs f hf _; exact hf
  | cons st rest ih =>
    intro fs f hf hrem
    simp only [runMods]
    apply ih
    · rw [mem_processMod_iff]
      exact Or.inr ⟨hf, hrem st (List.mem_cons_self _ _)⟩
    · intro st' hst'
      exact hrem st' (List.mem_cons_of_mem _ hst')

theorem mem_runMods_of_added (snap : List (Str × Str)) :
    ∀ (steps : List ModStep) (fs : List Str) (f : Str) (st : ModStep), st ∈ steps →
      f ∈ stepAdds snap st → (∀ st' ∈ steps, f ∉ stepRemoves snap st') →
      f ∈ (runMods snap steps fs).1 := by
  intro steps
  induction steps with
  | nil => intro fs f st hst; cases hst
  | cons st0 rest ih =>
    intro fs f st hst hadd hrem
    simp only [runMods]
    rcases List.mem_cons.mp hst with rfl | hst
    · apply mem_runMods_of_mem
      · rw [mem_processMod_iff]
        exact Or.inl hadd
      · intro st' hst'
        exact hrem st' (List.mem_cons_of_mem _ hst')
    · exact ih _ f st hst hadd (fun st' hst' => hrem st' (List.mem_cons_of_mem _ hst'))

theorem mem_runMods_cases (snap : List (Str × Str)) :
    ∀ (steps : List ModStep) (fs : List Str) (f : Str), f ∈ (runMods snap steps fs).1 →
      (∃ st ∈ steps, f ∈ stepAdds snap st) ∨
        (f ∈ fs ∧ ∀ st ∈ steps, f ∉ stepRemoves snap st) := by
  intro steps
  induction steps with
  | nil => intro fs f hf; exact Or.inr ⟨hf, by simp⟩
  | cons st0 rest ih =>
    intro fs f hf
    simp only [runMods] at hf
    rcases ih _ f hf with ⟨st, hst, hadd⟩ | ⟨hmem, hrem⟩
    · exact Or.inl ⟨st, List.mem_cons_of_mem _ hst, hadd⟩
    · rcases (mem_processMod_iff snap st0 fs f).mp hmem with hadd | ⟨hmem0, hrem0⟩
      · exact Or.inl ⟨st0, List.mem_cons_self _ _, hadd⟩
      · refine Or.inr ⟨hmem0, ?_⟩
        intro st hst
        rcases List.mem_cons.mp hst with rfl | hst
        · exact hrem0
        · exact hrem st hst

theorem mem_getExistingMods {fs : List Str} {pr : Str × Str} :
    pr ∈ getExistingMods fs ↔ pr.2 ∈ fs ∧ idOf pr.2 = some pr.1 := by
  unfold getExistingMods
  rw [List.mem_filterMap]
  constructor
  · rintro ⟨f, hf, hmap⟩
    rw [Option.map_eq_some'] at hmap
    obtain ⟨i, hi, heq⟩ := hmap
    cases heq
    exact ⟨hf, hi⟩
  · rintro ⟨hf, hid⟩
    exact ⟨pr.2, hf, by rw [hid]; rfl⟩

theorem uniquePerId_of_cons {a : Str} {t : List Str} (hu : UniquePerId (a :: t)) :
    UniquePerId t := by
  intro f hf g' hg' h1 h2
  exact hu f (List.mem_cons_of_mem _ hf) g' (List.mem_cons_of_mem _ hg') h1 h2

theorem find?_getExistingMods : ∀ {fs : List Str} {g i : Str},
    UniquePerId fs → g ∈ fs → idOf g = some i →
    (getExistingMods fs).find? (fun p => decide (p.1 = i)) = some (i, g) := by
  intro fs
  induction fs with
  | nil => intro g i _ hg; cases hg
  | cons a t ih =>
    intro g i hu hg hid
    have hu' : UniquePerId t := uniquePerId_of_cons hu
    show ((a :: t).filterMap (fun f => (idOf f).map (fun j => (j, f)))).find? _ = _
    rw [List.filterMap_cons]
    cases hida : idOf a with
    | none =>
      simp only [Option.map_none']
      have hgt : g ∈ t := by
        rcases List.mem_cons.mp hg with rfl | h
        · rw [hida] at hid; cases hid
        · exact h
      exact ih hu' hgt hid
    | some j =>
      simp only [Option.map_some']
      by_cases hji : j = i
      · subst hji
        rw [List.find?_cons_of_pos _ (by simp)]
        have hag : a = g := by
          apply hu a (List.mem_cons_self _ _) g hg
          · rw [hida]; simp
          · rw [hida, hid]
        rw [hag]
      · rw [List.find?_cons_of_neg _ (by simp [hji])]
        have hgt : g ∈ t := by
          rcases List.mem_cons.mp hg with rfl | h
          · rw [hida] at hid
            injection hid with hh
            exact absurd hh hji
          · exact h
        exact ih hu' hgt hid

theorem stepAdds_eq (snap : List (Str × Str)) (st : ModStep) {f : Str}
    (h : f ∈ stepAdds snap st) :
    ∃ disp, st.file? = some disp ∧ f = targetName st.modId disp ∧ st.fetchOk = true := by
  unfold stepAdds at h
  cases hf : st.file? with
  | none => simp only [hf] at h; cases h
  | some disp =>
    simp only [hf] at h
    refine ⟨disp, rfl, ?_⟩
    cases he : (snap.find? (fun p => decide (p.1 = st.modId))).map Prod.snd with
    | some old =>
      simp only [he] at h
      by_cases heq : old = targetName st.modId disp
      · rw [if_pos heq] at h; cases h
      · rw [if_neg heq] at h
        by_cases hok : st.fetchOk
        · rw [if_pos hok] at h
          exact ⟨List.mem_singleton.mp h, hok⟩
        · rw [if_neg hok] at h; cases h
    | none =>
      simp only [he] at h
      by_cases hok : st.fetchOk
      · rw [if_pos hok] at h
        exact ⟨List.mem_singleton.mp h, hok⟩
      · rw [if_neg hok] at h; cases h

theorem stepAdds_old_removed (snap : List (Str × Str)) (st : ModStep) {f : Str}
    {pr : Str × Str} (hadd : f ∈ stepAdds snap st)
    (hfind : snap.find? (fun p => decide (p.1 = st.modId)) = some pr) :
    pr.2 ∈ stepRemoves snap st := by
  obtain ⟨disp, hf, rfl, hok⟩ := stepAdds_eq snap st hadd
  unfold stepRemoves
  rw [hf]
  simp only [hfind, Option.map_some']
  by_cases heq : pr.2 = targetName st.modId disp
  · exfalso
    unfold stepAdds at hadd
    rw [hf] at hadd
    simp only [hfind, Option.map_some', if_pos heq] at hadd
    cases hadd
  · rw [if_neg heq, if_pos hok]
    exact List.mem_cons_of_mem _ (List.mem_singleton.mpr rfl)

theorem target_not_mem_stepRemoves_self (snap : List (Str × Str)) (st : ModStep) {disp : Str}
    (hgood : goodStep st = true) (hf : st.file? = some disp) :
    targetName st.modId disp ∉ stepRemoves snap st := by
  intro hmem
  unfold stepRemoves at hmem
  simp only [hf] at hmem
  have hm : '.' ∉ st.modId := goodStep_modId hgood
  have hd : lastSeg disp ≠ tmpSeg := goodStep_disp hgood hf
  have htmp : ∀ x, targetName st.modId disp ≠ tmpName x :=
    fun x => targetName_ne_tmpName _ _ _ hm hd
  cases he : (snap.find? (fun p => decide (p.1 = st.modId))).map Prod.snd with
  | none =>
    simp only [he] at hmem
    by_cases hok : st.fetchOk
    · rw [if_pos hok] at hmem
      exact htmp _ (List.mem_singleton.mp hmem)
    · rw [if_neg hok] at hmem
      exact htmp _ (List.mem_singleton.mp hmem)
  | some old =>
    simp only [he] at hmem
    by_cases heq : old = targetName st.modId disp
    · rw [if_pos heq] at hmem; cases hmem
    · rw [if_neg heq] at hmem
      by_cases hok : st.fetchOk
      · rw [if_pos hok] at hmem
        rcases List.mem_cons.mp hmem with h1 | h1
        · exact htmp _ h1
        · exact heq (List.mem_singleton.mp h1).symm
      · rw [if_neg hok] at hmem
        exact htmp _ (List.mem_singleton.mp hmem)

theorem target_not_mem_stepRemoves_other (snap : List (Str × Str)) (st' : ModStep)
    {modId disp : Str} (hm : '.' ∉ modId) (hd : lastSeg disp ≠ tmpSeg)
    (hsnap : ∀ pr ∈ snap, idOf pr.2 = some pr.1) (hne : st'.modId ≠ modId) :
    targetName modId disp ∉ stepRemoves snap st' := by
  intro hmem
  unfold stepRemoves at hmem
  cases hf' : st'.file? with
  | none => simp only [hf'] at hmem; cases hmem
  | some disp' =>
    simp only [hf'] at hmem
    have htmp : ∀ x, targetName modId disp ≠ tmpName x :=
      fun x => targetName_ne_tmpName _ _ _ hm hd
    cases he : snap.find? (fun p => decide (p.1 = st'.modId)) with
    | none =>
      simp only [he, Option.map_none'] at hmem
      by_cases hok : st'.fetchOk
      · rw [if_pos hok] at hmem
        exact htmp _ (List.mem_singleton.mp hmem)
      · rw [if_neg hok] at hmem
        exact htmp _ (List.mem_singleton.mp hmem)
    | some pr =>
      have hpr1 : pr.1 = st'.modId := by
        have hpb := List.find?_some he
        simpa using hpb
      have hpr2 : idOf pr.2 = some pr.1 := hsnap pr (List.mem_of_find?_eq_some he)
      have hold_ne : pr.2 ≠ targetName modId disp := by
        intro hcontra
        rw [hcontra, idOf_targetName _ _ hm, hpr1] at hpr2
        exact hne (Option.some.inj hpr2).symm
      simp only [he, Option.map_some'] at hmem
      by_cases heq : pr.2 = targetName st'.modId disp'
      · rw [if_pos heq] at hmem; cases hmem
      · rw [if_neg heq] at hmem
        by_cases hok : st'.fetchOk
        · rw [if_pos hok] at hmem
          rcases List.mem_cons.mp hmem with h1 | h1
          · exact htmp _ h1
          · exact hold_ne (List.mem_singleton.mp h1).symm
        · rw [if_neg hok] at hmem
          exact htmp _ (List.mem_singleton.mp hmem)

theorem target_survives (fs0 : List Str) (steps : List ModStep) {st : ModStep} {disp : Str}
    (hnd : (steps.map ModStep.modId).Nodup)
    (hgood : ∀ s ∈ steps, goodStep s = true)
    (hst : st ∈ steps) (hf : st.file? = some disp) :
    ∀ st' ∈ steps, targetName st.modId disp ∉ stepRemoves (getExistingMods fs0) st' := by
  intro st' hst'
  by_cases hne : st'.modId = st.modId
  · have heq : st' = st := List.inj_on_of_nodup_map hnd hst' hst hne
    rw [heq]
    exact target_not_mem_stepRemoves_self _ st (hgood st hst) hf
  · exact target_not_mem_stepRemoves_other _ st' (goodStep_modId (hgood st hst))
      (goodStep_disp (hgood st hst) hf)
      (fun pr hpr => (mem_getExistingMods.mp hpr).2) hne

theorem added_original_eq (steps : List ModStep) (fs0 : List Str)
    {st : ModStep} {disp g : Str}
    (hu : UniquePerId fs0)
    (hst : st ∈ steps)
    (hadd : targetName st.modId disp ∈ stepAdds (getExistingMods fs0) st)
    (hg0 : g ∈ fs0)
    (hgkeep : ∀ s ∈ steps, g ∉ stepRemoves (getExistingMods fs0) s)
    (hgid : idOf g = some st.modId) :
    targetName st.modId disp = g := by
  have hfind : (getExistingMods fs0).find? (fun p => decide (p.1 = st.modId)) =
      some (st.modId, g) := find?_getExistingMods hu hg0 hgid
  by_contra hne
  have hrem : (st.modId, g).2 ∈ stepRemoves (getExistingMods fs0) st :=
    stepAdds_old_removed _ _ hadd hfind
  exact hgkeep st hst hrem

theorem runAll_uniquePerId (steps : List ModStep) (fs0 : List Str)
    (hnd : (steps.map ModStep.modId).Nodup)
    (hgood : ∀ s ∈ steps, goodStep s = true)
    (hu : UniquePerId fs0) :
    UniquePerId (runAll steps fs0).1 := by
  intro f hfmem g hgmem hfid hfg
  unfold runAll at hfmem hgmem
  rcases mem_runMods_cases _ _ _ _ hfmem with ⟨st1, hst1, hadd1⟩ | ⟨hf0, hfkeep⟩
  · obtain ⟨disp1, hfile1, hfeq, hok1⟩ := stepAdds_eq _ _ hadd1
    have hid1 : idOf f = some st1.modId := by
      rw [hfeq]
      exact idOf_targetName _ _ (goodStep_modId (hgood st1 hst1))
    rcases mem_runMods_cases _ _ _ _ hgmem with ⟨st2, hst2, hadd2⟩ | ⟨hg0, hgkeep⟩
    · obtain ⟨disp2, hfile2, hgeq, hok2⟩ := stepAdds_eq _ _ hadd2
      have hid2 : idOf g = some st2.modId := by
        rw [hgeq]
        exact idOf_targetName _ _ (goodStep_modId (hgood st2 hst2))
      have hmideq : st1.modId = st2.modId := by
        have h12 : some st1.modId = some st2.modId := by rw [← hid1, ← hid2, hfg]
        exact Option.some.inj h12
      have hsteq : st1 = st2 := List.inj_on_of_nodup_map hnd hst1 hst2 hmideq
      subst hsteq
      rw [hfile1] at hfile2
      have hdeq : disp1 = disp2 := Option.some.inj hfile2
      rw [hfeq, hgeq, hdeq]
    · have hgid : idOf g = some st1.modId := by rw [← hfg, hid1]
      rw [hfeq]
      exact added_original_eq steps fs0 hu hst1 (hfeq ▸ hadd1) hg0 hgkeep hgid
  · rcases mem_runMods_cases _ _ _ _ hgmem with ⟨st2, hst2, hadd2⟩ | ⟨hg0, hgkeep⟩
    · obtain ⟨disp2, hfile2, hgeq, hok2⟩ := stepAdds_eq _ _ hadd2
      have hid2 : idOf g = some st2.modId := by
        rw [hgeq]
        exact idOf_targetName _ _ (goodStep_modId (hgood st2 hst2))
      have hfid2 : idOf f = some st2.modId := by rw [hfg, hid2]
      have := added_original_eq steps fs0 hu hst2 (hgeq ▸ hadd2) hf0 hfkeep hfid2
      rw [hgeq, ← this]
    · exact hu f hf0 g hg0 hfid hfg

theorem stepAdds_of_outcome (snap : List (Str × Str)) (st : ModStep) {disp : Str}
    (hf : st.file? = some disp)
    (ho : stepOutcome snap st = MOutcome.updated ∨ stepOutcome snap st = MOutcome.downloaded) :
    targetName st.modId disp ∈ stepAdds snap st := by
  unfold stepOutcome at ho
  unfold stepAdds
  simp only [hf] at ho ⊢
  cases he : (snap.find? (fun p => decide (p.1 = st.modId))).map Prod.snd with
  | some old =>
    simp only [he] at ho ⊢
    by_cases heq : old = targetName st.modId disp
    · rw [if_pos heq] at ho
      rcases ho with h | h <;> cases h
    · rw [if_neg heq] at ho ⊢
      by_cases hok : st.fetchOk
      · rw [if_pos hok]
        exact List.mem_singleton.mpr rfl
      · rw [if_neg hok] at ho
        rcases ho with h | h <;> cases h
  | none =>
    simp only [he] at ho ⊢
    by_cases hok : st.fetchOk
    · rw [if_pos hok]
      exact List.mem_singleton.mpr rfl
    · rw [if_neg hok] at ho
      rcases ho with h | h <;> cases h

theorem stepOutcome_already (snap : List (Str × Str)) (st : ModStep) {disp : Str}
    (hf : st.file? = some disp)
    (ho : stepOutcome snap st = MOutcome.alreadyExists) :
    ∃ pr, snap.find? (fun p => decide (p.1 = st.modId)) = some pr ∧
      pr.2 = targetName st.modId disp := by
  unfold stepOutcome at ho
  simp only [hf] at ho
  cases he : snap.find? (fun p => decide (p.1 = st.modId)) with
  | none =>
    simp only [he, Option.map_none'] at ho
    by_cases hok : st.fetchOk
    · rw [if_pos hok] at ho; cases ho
    · rw [if_neg hok] at ho; cases ho
  | some pr =>
    simp only [he, Option.map_some'] at ho
    by_cases heq : pr.2 = targetName st.modId disp
    · exact ⟨pr, rfl, heq⟩
    · rw [if_neg heq] at ho
      by_cases hok : st.fetchOk
      · rw [if_pos hok] at ho; cases ho
      · rw [if_neg hok] at ho; cases ho

theorem second_run_already (steps : List ModStep) (fs0 : List Str)
    (hnd : (steps.map ModStep.modId).Nodup)
    (hgood : ∀ s ∈ steps, goodStep s = true)
    (hu : UniquePerId fs0) :
    ∀ st ∈ steps, (stepOutcome (getExistingMods fs0) st = MOutcome.updated ∨
        stepOutcome (getExistingMods fs0) st = MOutcome.downloaded ∨
        stepOutcome (getExistingMods fs0) st = MOutcome.alreadyExists) →
      stepOutcome (getExistingMods (runAll steps fs0).1) st = MOutcome.alreadyExists := by
  intro st hst ho
  cases hfile : st.file? with
  | none =>
    exfalso
    unfold stepOutcome at ho
    simp only [hfile] at ho
    rcases ho with h | h | h <;> cases h
  | some disp =>
    have hmem1 : targetName st.modId disp ∈ (runAll steps fs0).1 := by
      rcases ho with h | h | h
      · exact mem_runMods_of_added _ _ _ _ st hst (stepAdds_of_outcome _ _ hfile (Or.inl h))
          (target_survives fs0 steps hnd hgood hst hfile)
      · exact mem_runMods_of_added _ _ _ _ st hst (stepAdds_of_outcome _ _ hfile (Or.inr h))
          (target_survives fs0 steps hnd hgood hst hfile)
      · obtain ⟨pr, hfind, hpr⟩ := stepOutcome_already _ _ hfile h
        have hmem0 : pr.2 ∈ fs0 :=
          (mem_getExistingMods.mp (List.mem_of_find?_eq_some hfind)).1
        rw [hpr] at hmem0
        exact mem_runMods_of_mem _ _ _ _ hmem0
          (target_survives fs0 steps hnd hgood hst hfile)
    have hu1 : UniquePerId (runAll steps fs0).1 := runAll_uniquePerId steps fs0 hnd hgood hu
    have hid : idOf (targetName st.modId disp) = some st.modId :=
      idOf_targetName _ _ (goodStep_modId (hgood st hst))
    have hfind2 : (getExistingMods (runAll steps fs0).1).find?
        (fun p => decide (p.1 = st.modId)) = some (st.modId, targetName st.modId disp) :=
      find?_getExistingMods hu1 hmem1 hid
    unfold stepOutcome
    simp only [hfile, hfind2, Option.map_some']
    simp

theorem mem_processRp_of_mem (snap : List Str) (file? : Option Str) (ok : Bool)
    (fs : List Str) {f : Str} (hf : f ∈ fs) (htmp : lastSeg f ≠ tmpSeg) :
    f ∈ (processRp snap file? ok fs).1 := by
  unfold processRp
  cases file? with
  | none => exact hf
  | some fname =>
    have hftmp : f ≠ tmpName fname := by
      intro he
      rw [he, lastSeg_tmpName] at htmp
      exact htmp rfl
    by_cases hin : fname ∈ snap
    · simp only [if_pos hin]
      exact hf
    · by_cases hok : ok = true
      · simp only [if_neg hin, if_pos hok, mem_fsAdd, mem_fsRemove]
        exact Or.inr ⟨Or.inr hf, hftmp⟩
      · simp only [if_neg hin, if_neg hok, mem_fsRemove, mem_fsAdd]
        exact ⟨Or.inr hf, hftmp⟩

theorem mem_runRp_of_mem (snap : List Str) :
    ∀ (steps : List (Option Str × Bool)) (fs : List Str) (f : Str), f ∈ fs →
      lastSeg f ≠ tmpSeg → f ∈ (runRp snap steps fs).1 := by
  intro steps
  induction steps with
  | nil => intro fs f hf _; exact hf
  | cons s rest ih =>
    intro fs f hf htmp
    simp only [runRp]
    exact ih _ f (mem_processRp_of_mem snap s.1 s.2 fs hf htmp) htmp

theorem processRp_downloaded_mem (snap : List Str) (fname : Str) (fs : List Str)
    (hnot : fname ∉ snap) :
    fname ∈ (processRp snap (some fname) true fs).1 := by
  unfold processRp
  simp [hnot, mem_fsAdd]

theorem processRp_never_updates (snap : List Str) (file? : Option Str) (ok : Bool)
    (fs : List Str) :
    (processRp snap file? ok fs).2 ≠ RpOutcome.noVersion →
      (processRp snap file? ok fs).2 = RpOutcome.alreadyExists ∨
      (processRp snap file? ok fs).2 = RpOutcome.downloaded ∨
      (processRp snap file? ok fs).2 = RpOutcome.fetchFailed := by
  unfold processRp
  cases file? with
  | none => intro h; exact absurd rfl h
  | some fname =>
    intro _
    by_cases hin : fname ∈ snap
    · simp [hin]
    · by_cases hok : ok = true
      · simp [hin, hok]
      · simp [hin, hok]

theorem modStatsUpdate_rp_updated (o : MOutcome) (s : Stats) :
    (modStatsUpdate o s).total_resourcepacks_updated = s.total_resourcepacks_updated := by
  cases o <;> rfl

theorem rpStatsUpdate_rp_updated (o : RpOutcome) (s : Stats) :
    (rpStatsUpdate o s).total_resourcepacks_updated = s.total_resourcepacks_updated := by
  cases o <;> rfl

theorem rpStatsUpdate_updated (o : RpOutcome) (s : Stats) :
    (rpStatsUpdate o s).total_updated = s.total_updated := by
  cases o <;> rfl

theorem foldl_mod_rp_updated (mouts : List MOutcome) :
    ∀ s : Stats,
      (mouts.foldl (fun a o => modStatsUpdate o a) s).total_resourcepacks_updated =
        s.total_resourcepacks_updated := by
  induction mouts with
  | nil => intro s; rfl
  | cons o t ih =>
    intro s
    rw [List.foldl_cons, ih, modStatsUpdate_rp_updated]

theorem foldl_rp_rp_updated (routs : List RpOutcome) :
    ∀ s : Stats,
      (routs.foldl (fun a o => rpStatsUpdate o a) s).total_resourcepacks_updated =
        s.total_resourcepacks_updated := by
  induction routs with
  | nil => intro s; rfl
  | cons o t ih =>
    intro s
    rw [List.foldl_cons, ih, rpStatsUpdate_rp_updated]

theorem runStats_rp_updated (mouts : List MOutcome) (routs : List RpOutcome) (s : Stats) :
    (runStats mouts routs s).total_resourcepacks_updated = s.total_resourcepacks_updated := by
  unfold runStats
  rw [foldl_rp_rp_updated, foldl_mod_rp_updated]

theorem auto_eq_orElse (data : List ModVersion) (latest loader : Str) :
    get_latest_version_auto data latest loader =
      match data.find? (matchesTier1 latest loader) with
      | some v => some v
      | none =>
        match data.find? (matchesTier2 latest) with
        | some v => some v
        | none => data.find? (matchesTier3 loader) := by
  by_cases h1 : (data.filter (matchesTier1 latest loader)).isEmpty = true
  · have e1 : data.find? (matchesTier1 latest loader) = none := by
      rw [← filter_head?_eq_find?, List.isEmpty_iff.mp h1]
      rfl
    by_cases h2 : (data.filter (matchesTier2 latest)).isEmpty = true
    · have e2 : data.find? (matchesTier2 latest) = none := by
        rw [← filter_head?_eq_find?, List.isEmpty_iff.mp h2]
        rfl
      simp only [get_latest_version_auto, if_pos h1, if_pos h2, e1, e2]
      exact filter_head?_eq_find? _ _
    · have e2 : data.find? (matchesTier2 latest) =
          (data.filter (matchesTier2 latest)).head? := (filter_head?_eq_find? _ _).symm
      simp only [get_latest_version_auto, if_pos h1, if_neg h2, e1, e2]
      cases hf : (data.filter (matchesTier2 latest)).head? with
      | none =>
        exfalso
        cases hl : data.filter (matchesTier2 latest) with
        | nil => rw [hl] at h2; exact h2 rfl
        | cons a t => rw [hl] at hf; cases hf
      | some v => rfl
  · have e1 : data.find? (matchesTier1 latest loader) =
        (data.filter (matchesTier1 latest loader)).head? := (filter_head?_eq_find? _ _).symm
    simp only [get_latest_version_auto, if_neg h1, e1]
    cases hf : (data.filter (matchesTier1 latest loader)).head? with
    | none =>
      exfalso
      cases hl : data.filter (matchesTier1 latest loader) with
      | nil => rw [hl] at h1; exact h1 rfl
      | cons a t => rw [hl] at hf; cases hf
    | some v => rfl

theorem runAll_snd (steps : List ModStep) (fs : List Str) :
    (runAll steps fs).2 = steps.map (stepOutcome (getExistingMods fs)) :=
  runMods_snd _ _ _

/-- Claim C8 counterexample: an identity that itself contains the dot
delimiter does not survive the round trip — inserting the identity a.b into
the display name m.jar yields m.a.b.jar, whose second-to-last segment
parses back as b, not a.b. -/
theorem C8_counterexample :
    idOf (targetName ['a', '.', 'b'] ['m', '.', 'j', 'a', 'r']) ≠ some ['a', '.', 'b'] := by
  decide

/-- Claim C8 (amended): deriving the target file name by inserting the
TrackedIdentity before the final dot-delimited segment of the display name,
and then parsing the second-to-last dot-delimited segment of the result,
recovers the identity — provided the identity contains no dot itself (an
identity with a dot breaks the round trip, see the counterexample). -/
theorem C8_roundtrip (modId disp : Str) (h : '.' ∉ modId) :
    idOf (targetName modId disp) = some modId :=
  idOf_targetName modId disp h

theorem C8_witness :
    idOf (targetName ['A', 'A', 'N', 'o', 'b', 'b', 'M', 'I']
        ['s', 'o', 'd', 'i', 'u', 'm', '.', 'j', 'a', 'r']) =
      some ['A', 'A', 'N', 'o', 'b', 'b', 'M', 'I'] :=
  C8_roundtrip ['A', 'A', 'N', 'o', 'b', 'b', 'M', 'I']
    ['s', 'o', 'd', 'i', 'u', 'm', '.', 'j', 'a', 'r'] (by decide)

/-- Claim C3: in the Updated transition of download_mod the new file is
renamed into its final place (os.replace) before the old installed file is
removed (os.remove): after every prefix of the update sequence at least one
of the old and final files exists, and in the state between the rename and
the removal both exist; the legacy script, which downloads straight to the
final path and then deletes the old file, also has both present between its
two steps. -/
theorem C3_replace_ordering (tmp final old : Str) (fs : List Str)
    (hold : old ∈ fs) (h1 : old ≠ tmp) (h2 : old ≠ final) :
    (∀ k : Nat, old ∈ execOps fs ((updateSeq tmp final old).take k) ∨
        final ∈ execOps fs ((updateSeq tmp final old).take k)) ∧
    (old ∈ execOps fs ((updateSeq tmp final old).take 2) ∧
      final ∈ execOps fs ((updateSeq tmp final old).take 2)) ∧
    (old ∈ execOps fs ((legacyUpdateSeq final old).take 1) ∧
      final ∈ execOps fs ((legacyUpdateSeq final old).take 1)) := by
  have hs0 : old ∈ execOps fs [] := hold
  have hs1 : old ∈ execOps fs [FsOp.fetch tmp] := mem_fsAdd.mpr (Or.inr hold)
  have hs2o : old ∈ execOps fs [FsOp.fetch tmp, FsOp.rename tmp final] := by
    show old ∈ fsAdd final (fsRemove tmp (fsAdd tmp fs))
    exact mem_fsAdd.mpr (Or.inr (mem_fsRemove.mpr ⟨mem_fsAdd.mpr (Or.inr hold), h1⟩))
  have hs2f : final ∈ execOps fs [FsOp.fetch tmp, FsOp.rename tmp final] := by
    show final ∈ fsAdd final (fsRemove tmp (fsAdd tmp fs))
    exact mem_fsAdd.mpr (Or.inl rfl)
  have hs3 : final ∈ execOps fs (updateSeq tmp final old) := by
    show final ∈ fsRemove old (fsAdd final (fsRemove tmp (fsAdd tmp fs)))
    exact mem_fsRemove.mpr ⟨hs2f, Ne.symm h2⟩
  refine ⟨?_, ⟨hs2o, hs2f⟩, ?_, ?_⟩
  · intro k
    match k with
    | 0 => exact Or.inl hs0
    | 1 => exact Or.inl hs1
    | 2 => exact Or.inl hs2o
    | (n + 3) =>
      have htake : (updateSeq tmp final old).take (n + 3) = updateSeq tmp final old :=
        List.take_of_length_le (by simp [updateSeq])
      rw [htake]
      exact Or.inr hs3
  · show old ∈ fsAdd final fs
    exact mem_fsAdd.mpr (Or.inr hold)
  · show final ∈ fsAdd final fs
    exact mem_fsAdd.mpr (Or.inl rfl)

theorem C3_witness :
    ['o', 'l', 'd'] ∈ execOps [['o', 'l', 'd']] ((updateSeq ['t'] ['f'] ['o', 'l', 'd']).take 2) ∧
    ['f'] ∈ execOps [['o', 'l', 'd']] ((updateSeq ['t'] ['f'] ['o', 'l', 'd']).take 2) :=
  (C3_replace_ordering ['t'] ['f'] ['o', 'l', 'd'] [['o', 'l', 'd']]
    (by decide) (by decide) (by decide)).2.1

/-- Claim C4 (code bug in download_modrinth.py): when the fetch for an
identity with an installed file fails, download_file swallows the URLError
instead of re-raising, so download_mod proceeds to os.remove the previously
installed file: the directory that held only the installed file is left
empty. The current-generation script keeps the installed file untouched on
the same input (last conjunct). -/
theorem C4_legacy_divergence :
    legacyDownloadRun (some ['s', 'o', 'd', 'i', 'u', 'm', '.', 'X', '.', 'j', 'a', 'r'])
        ['s', 'o', 'd', 'i', 'u', 'm', '2', '.', 'X', '.', 'j', 'a', 'r'] false false
        [['s', 'o', 'd', 'i', 'u', 'm', '.', 'X', '.', 'j', 'a', 'r']] = [] ∧
    (processMod (getExistingMods [['s', 'o', 'd', 'i', 'u', 'm', '.', 'X', '.', 'j', 'a', 'r']])
        ⟨['X'], some ['s', 'o', 'd', 'i', 'u', 'm', '2', '.', 'j', 'a', 'r'], false⟩
        [['s', 'o', 'd', 'i', 'u', 'm', '.', 'X', '.', 'j', 'a', 'r']]).1 =
      [['s', 'o', 'd', 'i', 'u', 'm', '.', 'X', '.', 'j', 'a', 'r']] := by
  decide

/-- Claim C5 counterexample: a fetch failure is not counted as unresolved —
download_mod returns from the except branch having incremented the checked
counters only, so every one of the four outcome counters stays 0. -/
theorem C5_counterexample :
    (processMod [] ⟨['X'], some ['s', '.', 'j', 'a', 'r'], false⟩ []).2 =
      MOutcome.fetchFailed ∧
    (modStatsUpdate MOutcome.fetchFailed initStats).total_checked = 1 ∧
    (modStatsUpdate MOutcome.fetchFailed initStats).total_no_version = 0 ∧
    (modStatsUpdate MOutcome.fetchFailed initStats).total_downloaded = 0 ∧
    (modStatsUpdate MOutcome.fetchFailed initStats).total_updated = 0 ∧
    (modStatsUpdate MOutcome.fetchFailed initStats).total_already_exist = 0 := by
  decide

/-- Claim C5 (amended): every processed identity increments the checked
counters exactly once, and increments exactly one of the four outcome
counters exactly once — except an identity whose fetch fails, which
increments no outcome counter at all (it is not folded into unresolved). -/
theorem C5_counters (o : MOutcome) (r : RpOutcome) (s t : Stats) :
    (modStatsUpdate o s).total_checked = s.total_checked + 1 ∧
    (modStatsUpdate o s).total_mods_checked = s.total_mods_checked + 1 ∧
    (o ≠ MOutcome.fetchFailed → IncExactlyOne s (modStatsUpdate o s)) ∧
    (o = MOutcome.fetchFailed →
      (modStatsUpdate o s).total_downloaded = s.total_downloaded ∧
      (modStatsUpdate o s).total_updated = s.total_updated ∧
      (modStatsUpdate o s).total_already_exist = s.total_already_exist ∧
      (modStatsUpdate o s).total_no_version = s.total_no_version) ∧
    (rpStatsUpdate r t).total_checked = t.total_checked + 1 ∧
    (rpStatsUpdate r t).total_resourcepacks_checked = t.total_resourcepacks_checked + 1 ∧
    (r ≠ RpOutcome.fetchFailed → IncExactlyOne t (rpStatsUpdate r t)) ∧
    (r = RpOutcome.fetchFailed →
      (rpStatsUpdate r t).total_downloaded = t.total_downloaded ∧
      (rpStatsUpdate r t).total_updated = t.total_updated ∧
      (rpStatsUpdate r t).total_already_exist = t.total_already_exist ∧
      (rpStatsUpdate r t).total_no_version = t.total_no_version) := by
  cases o <;> cases r <;> simp [modStatsUpdate, rpStatsUpdate, IncExactlyOne]

theorem C5_witness : IncExactlyOne initStats (modStatsUpdate MOutcome.downloaded initStats) :=
  (C5_counters MOutcome.downloaded RpOutcome.downloaded initStats initStats).2.2.1 (by decide)

/-- Claim C6 counterexample: with two files for the identity X in the
directory before the run, updating X removes only the file the snapshot
lookup found first, so after the run two files still map to X — the claim
fails for arbitrary pre-run directories. -/
theorem C6_counterexample :
    ¬ UniquePerId (runAll [⟨['X'], some ['c', '.', 'j', 'a', 'r'], true⟩]
      [['a', '.', 'X', '.', 'j', 'a', 'r'], ['b', '.', 'X', '.', 'j', 'a', 'r']]).1 := by
  decide

/-- Claim C6 (amended): after a run of the apply engine at most one file in
the directory maps to each TrackedIdentity, provided the directory already
satisfied that invariant before the run, the processed identities are
pairwise distinct and dot-free, and no chosen file name ends in the
temporary extension. -/
theorem C6_unique_mapping (steps : List ModStep) (fs0 : List Str)
    (hnd : (steps.map ModStep.modId).Nodup)
    (hgood : ∀ s ∈ steps, goodStep s = true)
    (hu : UniquePerId fs0) :
    UniquePerId (runAll steps fs0).1 :=
  runAll_uniquePerId steps fs0 hnd hgood hu

theorem C6_witness :
    UniquePerId (runAll [⟨['X'], some ['c', '.', 'j', 'a', 'r'], true⟩]
      [['a', '.', 'X', '.', 'j', 'a', 'r']]).1 :=
  C6_unique_mapping [⟨['X'], some ['c', '.', 'j', 'a', 'r'], true⟩]
    [['a', '.', 'X', '.', 'j', 'a', 'r']] (by decide) (by decide) (by decide)

/-- Claim C9 counterexample: an identity with no compatible release is
unresolved on the first run and unresolved again on the second run — not
AlreadyCurrent — so the claim does not hold for every identity. -/
theorem C9_counterexample :
    (runAll [⟨['X'], none, true⟩] (runAll [⟨['X'], none, true⟩] []).1).2 =
      [MOutcome.noVersion] ∧ MOutcome.noVersion ≠ MOutcome.alreadyExists := by
  decide

/-- Claim C9 (amended): rerunning reconciliation with the catalog unchanged
yields AlreadyCurrent, with no file download invoked, for every identity
whose first-run outcome was Downloaded, Updated or AlreadyCurrent (under
the benign-input hypotheses: distinct dot-free identities, chosen file
names not ending in the temporary extension, and a pre-run directory with
at most one file per identity); identities that were unresolved or whose
fetch failed repeat their resolution instead. -/
theorem C9_idempotent (steps : List ModStep) (fs0 : List Str)
    (hnd : (steps.map ModStep.modId).Nodup)
    (hgood : ∀ s ∈ steps, goodStep s = true)
    (hu : UniquePerId fs0) :
    ∀ (k : Nat) (o : MOutcome), (runAll steps fs0).2[k]? = some o →
      (o = MOutcome.updated ∨ o = MOutcome.downloaded ∨ o = MOutcome.alreadyExists) →
      (runAll steps (runAll steps fs0).1).2[k]? = some MOutcome.alreadyExists ∧
        fetchInvoked MOutcome.alreadyExists = false := by
  intro k o ho hgoodo
  rw [runAll_snd] at ho
  rw [runAll_snd]
  rw [List.getElem?_map] at ho
  rw [List.getElem?_map]
  cases hk : steps[k]? with
  | none => rw [hk] at ho; cases ho
  | some st =>
    rw [hk] at ho
    simp only [Option.map_some'] at ho
    have hst : st ∈ steps := List.getElem?_mem hk
    have ho2 : stepOutcome (getExistingMods fs0) st = o := Option.some.inj ho
    have halready : stepOutcome (getExistingMods (runAll steps fs0).1) st =
        MOutcome.alreadyExists := by
      apply second_run_already steps fs0 hnd hgood hu st hst
      rw [ho2]
      rcases hgoodo with h | h | h
      · exact Or.inl h
      · exact Or.inr (Or.inl h)
      · exact Or.inr (Or.inr h)
    simp only [Option.map_some', halready]
    exact ⟨trivial, rfl⟩

theorem C9_witness :
    (runAll [⟨['X'], some ['c', '.', 'j', 'a', 'r'], true⟩]
        (runAll [⟨['X'], some ['c', '.', 'j', 'a', 'r'], true⟩] []).1).2[0]? =
      some MOutcome.alreadyExists ∧ fetchInvoked MOutcome.alreadyExists = false :=
  C9_idempotent [⟨['X'], some ['c', '.', 'j', 'a', 'r'], true⟩] []
    (by decide) (by decide) (by decide) 0 MOutcome.downloaded (by decide) (by decide)

/-- Claim C1 counterexample: with an explicitly given version, the
resource-pack selector substitutes a non-matching release — for a single
candidate that supports neither the requested version nor the requested
loader, it returns that candidate instead of none. -/
theorem C1_counterexample :
    rp_version_explicit [⟨some [['1', '.', '2', '0']], some [['f', 'o', 'r', 'g', 'e']], []⟩]
        ['1', '.', '2', '1'] =
      some ⟨some [['1', '.', '2', '0']], some [['f', 'o', 'r', 'g', 'e']], []⟩ ∧
    rpMatchesVersion ['1', '.', '2', '1']
      ⟨some [['1', '.', '2', '0']], some [['f', 'o', 'r', 'g', 'e']], []⟩ = false ∧
    matchesExplicit ['1', '.', '2', '1'] ['f', 'a', 'b', 'r', 'i', 'c']
      ⟨some [['1', '.', '2', '0']], some [['f', 'o', 'r', 'g', 'e']], []⟩ = false := by
  decide

/-- Claim C1 (amended): for mods, the explicitly-given-version selector
returns the first candidate in catalog order whose loaders contain the
loader case-insensitively and whose game_versions contain the version
exactly, and none when no candidate matches, with no substitution; the
resource-pack selector, by contrast, checks only the version and, when no
candidate matches, falls back to the first (newest) candidate instead of
returning none. -/
theorem C1_explicit_selection (data : List ModVersion) (version loader : Str) :
    (∀ v, get_latest_version_explicit data version loader = some v →
      matchesExplicit version loader v = true ∧
      ∃ pre post, data = pre ++ v :: post ∧
        ∀ w ∈ pre, matchesExplicit version loader w = false) ∧
    (get_latest_version_explicit data version loader = none ↔
      ∀ v ∈ data, matchesExplicit version loader v = false) ∧
    (∀ v gvs lds, get_latest_version_explicit data version loader = some v →
      v.game_versions = some gvs → v.loaders = some lds →
      version ∈ gvs ∧ strLower loader ∈ lds.map strLower) ∧
    (∀ v, rp_version_explicit data version = some v →
      rpMatchesVersion version v = true ∨
        ((∀ w ∈ data, rpMatchesVersion version w = false) ∧ data.head? = some v)) ∧
    ((∀ w ∈ data, rpMatchesVersion version w = false) →
      rp_version_explicit data version = data.head?) := by
  refine ⟨?_, ?_, ?_, ?_, ?_⟩
  · intro v hv
    obtain ⟨hp, pre, post, hsplit, hpre⟩ := find?_decomp hv
    exact ⟨hp, pre, post, hsplit, hpre⟩
  · constructor
    · intro h v hv
      have := List.find?_eq_none.mp h v hv
      simpa using this
    · intro h
      apply List.find?_eq_none.mpr
      intro x hx
      simp [h x hx]
  · intro v gvs lds hv hg hl
    have hp : matchesExplicit version loader v = true := (find?_decomp hv).1
    unfold matchesExplicit at hp
    rw [hg, hl] at hp
    simp only [Bool.and_eq_true, decide_eq_true_eq] at hp
    exact ⟨hp.1, of_decide_eq_true (by unfold loaderMatches at hp; exact hp.2)⟩
  · intro v hv
    unfold rp_version_explicit at hv
    cases hfind : data.find? (rpMatchesVersion version) with
    | some w =>
      rw [hfind] at hv
      have hw : w = v := Option.some.inj hv
      exact Or.inl (hw ▸ (find?_decomp hfind).1)
    | none =>
      rw [hfind] at hv
      refine Or.inr ⟨?_, hv⟩
      intro w hw
      have := List.find?_eq_none.mp hfind w hw
      simpa using this
  · intro h
    unfold rp_version_explicit
    cases hfind : data.find? (rpMatchesVersion version) with
    | some w =>
      exfalso
      have hwmem : w ∈ data := List.mem_of_find?_eq_some hfind
      have := (find?_decomp hfind).1
      rw [h w hwmem] at this
      cases this
    | none => rfl

theorem C1_witness :
    get_latest_version_explicit
      [⟨some [['1', '.', '2', '0']], some [['f', 'o', 'r', 'g', 'e']], []⟩]
      ['1', '.', '2', '1'] ['f', 'a', 'b', 'r', 'i', 'c'] = none :=
  (C1_explicit_selection
    [⟨some [['1', '.', '2', '0']], some [['f', 'o', 'r', 'g', 'e']], []⟩]
    ['1', '.', '2', '1'] ['f', 'a', 'b', 'r', 'i', 'c']).2.1.mpr (by decide)

/-- Claim C7: within a chosen release the file to download is the first
FileDescriptor with primary true; with no primary file, the resource-pack
path falls back to the first descriptor of the file sequence, while the mod
path selects nothing — download_mod treats the identity as unresolved and
mutates nothing. -/
theorem C7_file_selection (files : List FileDesc) :
    (∀ f, modFileToDownload files = some f → f.primary = true ∧
      ∃ pre post, files = pre ++ f :: post ∧ ∀ g ∈ pre, g.primary = false) ∧
    (modFileToDownload files = none ↔ ∀ f ∈ files, f.primary = false) ∧
    ((∃ f ∈ files, f.primary = true) → rpFileToDownload files = modFileToDownload files) ∧
    ((∀ f ∈ files, f.primary = false) → rpFileToDownload files = files.head?) ∧
    (∀ (snap : List (Str × Str)) (fs : List Str) (mid : Str) (ok : Bool),
      (processMod snap ⟨mid, none, ok⟩ fs).2 = MOutcome.noVersion ∧
      (processMod snap ⟨mid, none, ok⟩ fs).1 = fs) := by
  refine ⟨?_, ?_, ?_, ?_, ?_⟩
  · intro f hf
    obtain ⟨hp, pre, post, hsplit, hpre⟩ := find?_decomp hf
    exact ⟨hp, pre, post, hsplit, hpre⟩
  · constructor
    · intro h f hfm
      have := List.find?_eq_none.mp h f hfm
      simpa using this
    · intro h
      apply List.find?_eq_none.mpr
      intro f hfm
      simp [h f hfm]
  · rintro ⟨f, hfm, hfp⟩
    unfold rpFileToDownload modFileToDownload
    cases hfind : files.find? (fun g => g.primary) with
    | some w => rfl
    | none =>
      exfalso
      have := List.find?_eq_none.mp hfind f hfm
      rw [hfp] at this
      exact this rfl
  · intro h
    unfold rpFileToDownload
    cases hfind : files.find? (fun g => g.primary) with
    | some w =>
      exfalso
      have hwmem : w ∈ files := List.mem_of_find?_eq_some hfind
      have hwp : w.primary = true := List.find?_some hfind
      rw [h w hwmem] at hwp
      cases hwp
    | none => rfl
  · intro snap fs mid ok
    exact ⟨rfl, rfl⟩

theorem C7_witness :
    rpFileToDownload [⟨['u'], ['p', '.', 'z', 'i', 'p'], false⟩] =
      some ⟨['u'], ['p', '.', 'z', 'i', 'p'], false⟩ := by
  have h := (C7_file_selection [⟨['u'], ['p', '.', 'z', 'i', 'p'], false⟩]).2.2.2.1 (by decide)
  rw [h]
  rfl

/-- Claim C10: the resource-pack path never updates: every non-temporary
file present before the run is still present after it (a release whose name
differs from every installed one is downloaded alongside them), a chosen
name absent from the snapshot is downloaded without deleting anything,
download_resourcepack has no Updated outcome, and no code path of either
download function increments total_resourcepacks_updated, which is
therefore 0 at the end of every run. -/
theorem C10_no_rp_update (snap : List Str) (steps : List (Option Str × Bool))
    (fs : List Str) (mouts : List MOutcome) (routs : List RpOutcome) :
    (∀ f ∈ fs, lastSeg f ≠ tmpSeg → f ∈ (runRp snap steps fs).1) ∧
    (∀ (fname : Str) (fs' : List Str), fname ∉ snap →
      fname ∈ (processRp snap (some fname) true fs').1) ∧
    (∀ (file? : Option Str) (ok : Bool) (fs' : List Str),
      (processRp snap file? ok fs').2 ≠ RpOutcome.noVersion →
      (processRp snap file? ok fs').2 = RpOutcome.alreadyExists ∨
      (processRp snap file? ok fs').2 = RpOutcome.downloaded ∨
      (processRp snap file? ok fs').2 = RpOutcome.fetchFailed) ∧
    (∀ (r : RpOutcome) (t : Stats),
      (rpStatsUpdate r t).total_resourcepacks_updated = t.total_resourcepacks_updated ∧
      (rpStatsUpdate r t).total_updated = t.total_updated) ∧
    (runStats mouts routs initStats).total_resourcepacks_updated = 0 := by
  refine ⟨?_, ?_, ?_, ?_, ?_⟩
  · intro f hf htmp
    exact mem_runRp_of_mem snap steps fs f hf htmp
  · intro fname fs' hnot
    exact processRp_downloaded_mem snap fname fs' hnot
  · intro file? ok fs' hne
    exact processRp_never_updates snap file? ok fs' hne
  · intro r t
    exact ⟨rpStatsUpdate_rp_updated r t, rpStatsUpdate_updated r t⟩
  · rw [runStats_rp_updated]
    rfl

theorem C10_witness :
    ['a', '.', 'z', 'i', 'p'] ∈
      (runRp [['a', '.', 'z', 'i', 'p']] [(some ['b', '.', 'z', 'i', 'p'], true)]
        [['a', '.', 'z', 'i', 'p']]).1 :=
  (C10_no_rp_update [['a', '.', 'z', 'i', 'p']] [(some ['b', '.', 'z', 'i', 'p'], true)]
    [['a', '.', 'z', 'i', 'p']] [] []).1 ['a', '.', 'z', 'i', 'p'] (by decide) (by decide)

/-- Claim C2: with no version given, selection resolves the newest known
version once (get_latest_minecraft_version caches it: a filled cache is
returned as-is, an empty cache is filled from the head of the newest-first
version list, and with no resolved version selection returns none), then
applies exactly three tiers in order — loader and newest version, newest
version only, loader only — each returning the first candidate in catalog
order, with none only when all three tiers are empty. -/
theorem C2_auto_selection (data : List ModVersion) (latest loader : Str) :
    ((∃ v ∈ data, matchesTier1 latest loader v = true) →
      get_latest_version_auto data latest loader = data.find? (matchesTier1 latest loader)) ∧
    ((∀ v ∈ data, matchesTier1 latest loader v = false) →
      (∃ v ∈ data, matchesTier2 latest v = true) →
      get_latest_version_auto data latest loader = data.find? (matchesTier2 latest)) ∧
    ((∀ v ∈ data, matchesTier1 latest loader v = false) →
      (∀ v ∈ data, matchesTier2 latest v = false) →
      get_latest_version_auto data latest loader = data.find? (matchesTier3 loader)) ∧
    (get_latest_version_auto data latest loader = none ↔
      ∀ v ∈ data, matchesTier1 latest loader v = false ∧ matchesTier2 latest v = false ∧
        matchesTier3 loader v = false) ∧
    (∀ v, get_latest_version_auto data latest loader = some v →
      ∃ pre post, data = pre ++ v :: post ∧
        ((matchesTier1 latest loader v = true ∧
            ∀ w ∈ pre, matchesTier1 latest loader w = false) ∨
         ((∀ w ∈ data, matchesTier1 latest loader w = false) ∧ matchesTier2 latest v = true ∧
            ∀ w ∈ pre, matchesTier2 latest w = false) ∨
         ((∀ w ∈ data, matchesTier1 latest loader w = false) ∧
            (∀ w ∈ data, matchesTier2 latest w = false) ∧ matchesTier3 loader v = true ∧
            ∀ w ∈ pre, matchesTier3 loader w = false))) ∧
    (∀ (w : Str) (fetched : Option (List Str)),
      get_latest_minecraft_version (some w) fetched = (some w, some w)) ∧
    (∀ (v : Str) (rest : List Str),
      get_latest_minecraft_version none (some (v :: rest)) = (some v, some v)) ∧
    (get_latest_version data none loader none = none) := by
  have e := auto_eq_orElse data latest loader
  have t1none : data.find? (matchesTier1 latest loader) = none ↔
      ∀ v ∈ data, matchesTier1 latest loader v = false := by
    rw [List.find?_eq_none]
    constructor
    · intro h v hv
      simpa using h v hv
    · intro h v hv
      simp [h v hv]
  have t2none : data.find? (matchesTier2 latest) = none ↔
      ∀ v ∈ data, matchesTier2 latest v = false := by
    rw [List.find?_eq_none]
    constructor
    · intro h v hv
      simpa using h v hv
    · intro h v hv
      simp [h v hv]
  have t3none : data.find? (matchesTier3 loader) = none ↔
      ∀ v ∈ data, matchesTier3 loader v = false := by
    rw [List.find?_eq_none]
    constructor
    · intro h v hv
      simpa using h v hv
    · intro h v hv
      simp [h v hv]
  refine ⟨?_, ?_, ?_, ?_, ?_, ?_, ?_, ?_⟩
  · rintro ⟨v, hv, hp⟩
    cases hfind : data.find? (matchesTier1 latest loader) with
    | none =>
      exfalso
      rw [t1none] at hfind
      rw [hfind v hv] at hp
      cases hp
    | some w =>
      rw [e]
      simp only [hfind]
  · intro h1 h2
    obtain ⟨v, hv, hp⟩ := h2
    have hf1 : data.find? (matchesTier1 latest loader) = none := t1none.mpr h1
    cases hfind : data.find? (matchesTier2 latest) with
    | none =>
      exfalso
      rw [t2none] at hfind
      rw [hfind v hv] at hp
      cases hp
    | some w =>
      rw [e]
      simp only [hf1, hfind]
  · intro h1 h2
    have hf1 : data.find? (matchesTier1 latest loader) = none := t1none.mpr h1
    have hf2 : data.find? (matchesTier2 latest) = none := t2none.mpr h2
    rw [e]
    simp only [hf1, hf2]
  · constructor
    · intro h
      rw [e] at h
      cases hf1 : data.find? (matchesTier1 latest loader) with
      | some w =>
        simp only [hf1] at h
        cases h
      | none =>
        simp only [hf1] at h
        cases hf2 : data.find? (matchesTier2 latest) with
        | some w =>
          simp only [hf2] at h
          cases h
        | none =>
          simp only [hf2] at h
          intro v hv
          exact ⟨t1none.mp hf1 v hv, t2none.mp hf2 v hv, t3none.mp h v hv⟩
    · intro h
      rw [e]
      have hf1 : data.find? (matchesTier1 latest loader) = none :=
        t1none.mpr (fun v hv => (h v hv).1)
      have hf2 : data.find? (matchesTier2 latest) = none :=
        t2none.mpr (fun v hv => (h v hv).2.1)
      have hf3 : data.find? (matchesTier3 loader) = none :=
        t3none.mpr (fun v hv => (h v hv).2.2)
      simp only [hf1, hf2, hf3]
  · intro v hv
    rw [e] at hv
    cases hf1 : data.find? (matchesTier1 latest loader) with
    | some w =>
      simp only [hf1] at hv
      have hw : w = v := Option.some.inj hv
      subst hw
      obtain ⟨hp, pre, post, hsplit, hpre⟩ := find?_decomp hf1
      exact ⟨pre, post, hsplit, Or.inl ⟨hp, hpre⟩⟩
    | none =>
      simp only [hf1] at hv
      have h1all := t1none.mp hf1
      cases hf2 : data.find? (matchesTier2 latest) with
      | some w =>
        simp only [hf2] at hv
        have hw : w = v := Option.some.inj hv
        subst hw
        obtain ⟨hp, pre, post, hsplit, hpre⟩ := find?_decomp hf2
        exact ⟨pre, post, hsplit, Or.inr (Or.inl ⟨h1all, hp, hpre⟩)⟩
      | none =>
        simp only [hf2] at hv
        have h2all := t2none.mp hf2
        obtain ⟨hp, pre, post, hsplit, hpre⟩ := find?_decomp hv
        exact ⟨pre, post, hsplit, Or.inr (Or.inr ⟨h1all, h2all, hp, hpre⟩)⟩
  · intro w fetched
    rfl
  · intro v rest
    rfl
  · rfl

theorem C2_witness :
    get_latest_version_auto
        [⟨some [['1', '.', '2', '1']], some [['f', 'o', 'r', 'g', 'e']], []⟩]
        ['1', '.', '2', '1'] ['f', 'a', 'b', 'r', 'i', 'c'] =
      List.find? (matchesTier2 ['1', '.', '2', '1'])
        [⟨some [['1', '.', '2', '1']], some [['f', 'o', 'r', 'g', 'e']], []⟩] :=
  (C2_auto_selection
    [⟨some [['1', '.', '2', '1']], some [['f', 'o', 'r', 'g', 'e']], []⟩]
    ['1', '.', '2', '1'] ['f', 'a', 'b', 'r', 'i', 'c']).2.1 (by decide) (by decide)
